import Mathlib

/-!
Verification development for the LibreChat maintenance scripts and the
artifact code-rendering components.

The development shallowly embeds three independent pieces of the repository:

1. `Rendering`: the content-normalization function `processContent` and the
   filename fallback of `src/client/src/components/Artifacts/Code.tsx`,
   together with the language-selection state transition and tab label of
   the Monaco editor wrapper component.
2. `Archive`: the conversation-archival script
   `src/api/archiveAllUserChats-30days.js`, modelled as a deterministic
   interpreter over an explicit database state that also records the
   sequence of database operations performed.
3. `ExportRun`: the conversation-export script, modelled as a function from
   a database state and a set of failing file paths to the list of files
   written.

JavaScript machine details are embedded as follows: JavaScript values
reaching the normalizer are a closed inductive type `JSValue`; default
string conversion (the JS String function) is `jsString`; property
presence (the JS in operator, first matching key) is `lookupField`;
Date arithmetic is abstracted to integer timestamps measured in days, so
that "now minus 30 days" is integer subtraction.
-/

namespace Rendering

/-- A JavaScript value as it can reach `processContent` in Code.tsx: the
undefined and null values, booleans, (integer) numbers, strings, arrays,
plain objects given as an ordered key-value list, and React elements
(recognized by React.isValidElement), which carry their props object. -/
inductive JSValue where
  | vUndefined : JSValue
  | vNull : JSValue
  | vBool : Bool → JSValue
  | vNum : Int → JSValue
  | vStr : String → JSValue
  | vArr : List JSValue → JSValue
  | vObj : List (String × JSValue) → JSValue
  | vElem : List (String × JSValue) → JSValue

/-- First-match property lookup on an object field list: the model of both
property access and the JS in operator (JS object keys are unique, so
first match is the property). -/
def lookupField : List (String × JSValue) → String → Option JSValue
  | [], _ => none
  | (k, v) :: rest, key => if k == key then some v else lookupField rest key

mutual

/-- JS default string conversion, String(v): "undefined" and "null" for the
absent values, decimal for integers, identity on strings, comma-joined
element conversion for arrays (with null/undefined elements rendered
empty), and "[object Object]" for plain objects and React elements. -/
def jsString : JSValue → String
  | .vUndefined => "undefined"
  | .vNull => "null"
  | .vBool b => if b then "true" else "false"
  | .vNum n => toString n
  | .vStr s => s
  | .vArr xs => jsArrayString xs
  | .vObj _ => "[object Object]"
  | .vElem _ => "[object Object]"

/-- Array.prototype.toString: elements joined by commas, null/undefined
elements rendered as the empty string. -/
def jsArrayString : List JSValue → String
  | [] => ""
  | x :: xs =>
      (match x with
       | .vUndefined => ""
       | .vNull => ""
       | y => jsString y)
      ++ (if xs.isEmpty then "" else "," ++ jsArrayString xs)

end

/-- Concatenation of a list of strings: the model of .join with the empty
separator applied to a list of strings. -/
def joinStrings : List String → String
  | [] => ""
  | s :: ss => s ++ joinStrings ss

mutual

/-- The content normalizer of Code.tsx (`processContent`): arrays are
normalized elementwise and concatenated; React elements recurse into
props.children; plain objects yield String of their value field if
present, else String of their raw field if present, else recurse into
props.children when the props field holds an object with a children key,
else fall back to String(children), which for a plain object is
"[object Object]"; everything else is String(children with nullish
coalescing to the empty string). The result is an Option because the JS
in operator throws a TypeError when the props field holds a primitive. -/
def processContent : JSValue → Option String
  | .vUndefined => some ""
  | .vNull => some ""
  | .vBool b => some (jsString (.vBool b))
  | .vNum n => some (jsString (.vNum n))
  | .vStr s => some s
  | .vArr xs => (processList xs).map joinStrings
  | .vElem props => elemChildren props
  | .vObj fields =>
      match lookupField fields "value" with
      | some v => some (jsString v)
      | none =>
        match lookupField fields "raw" with
        | some r => some (jsString r)
        | none => objPropsChildren fields

/-- React-element branch: `processContent(children.props.children)`; when
the props object has no children key the access yields undefined, which
normalizes to the empty string. -/
def elemChildren : List (String × JSValue) → Option String
  | [] => some ""
  | (k, v) :: rest => if k == "children" then processContent v else elemChildren rest

/-- Plain-object fallback chain after the value and raw checks: scan for a
props field; when it holds an object, recurse into its children key; when
it holds an array or element (an object without a children key) or when
there is no props field, fall back to String of the original plain object,
"[object Object]"; when it holds a primitive, the in operator throws. -/
def objPropsChildren : List (String × JSValue) → Option String
  | [] => some "[object Object]"
  | (k, v) :: rest =>
      if k == "props" then
        match v with
        | .vObj props => propsChildren props
        | .vArr _ => some "[object Object]"
        | .vElem _ => some "[object Object]"
        | _ => none
      else objPropsChildren rest

/-- Scan of the props object for its children key; absent children means
the guard of the recursion fails and the normalizer falls back to
String of the original plain object. -/
def propsChildren : List (String × JSValue) → Option String
  | [] => some "[object Object]"
  | (k, v) :: rest => if k == "children" then processContent v else propsChildren rest

/-- Elementwise normalization of an array, in order; a thrown TypeError in
any element aborts the whole normalization. -/
def processList : List JSValue → Option (List String)
  | [] => some []
  | x :: xs =>
      match processContent x, processList xs with
      | some s, some ss => some (s :: ss)
      | _, _ => none

end

/-- Truthiness of an optional string prop: undefined and the empty string
are falsy, every other string is truthy. -/
def strTruthy : Option String → Bool
  | none => false
  | some s => s != ""

/-- The display-name fallback of Code.tsx:
filename with the JS or-operator falling back to
"untitled" plus a dot and the language tag when the language tag is
truthy. The language tag is the first capture of the language class-name
pattern, hence nonempty whenever present. -/
def displayFilename (filename : Option String) (lang : Option String) : String :=
  if strTruthy filename then filename.getD ""
  else "untitled" ++ (if strTruthy lang then "." ++ lang.getD "" else "")

/-- The filename shown in the Monaco editor tab bar: the filename prop,
with the component default "untitled" when the prop is absent. -/
def monacoTabLabel (filename : Option String) : String :=
  filename.getD "untitled"

/-- The presentation state of the Monaco editor wrapper component that the
embedding tracks: the text handed to the editor (defaultValue), the
read-only flag, the filename in the tab bar, the computed height, the
current-language label of the status bar, the visibility of the language
dropdown, and the language mode of the editor model. -/
structure EditorState where
  content : String
  readOnly : Bool
  filename : String
  height : Nat
  currentLanguage : String
  showLanguages : Bool
  modelLanguage : String
deriving DecidableEq

/-- The language-selection handler of the Monaco editor wrapper:
setCurrentLanguage(lang), setShowLanguages(false), and
monaco.editor.setModelLanguage(model, lang); the model text is untouched. -/
def handleLanguageChange (s : EditorState) (lang : String) : EditorState :=
  { s with currentLanguage := lang, showLanguages := false, modelLanguage := lang }

end Rendering

namespace Archive

/-- A user document: object id and username. -/
structure DbUser where
  uid : Nat
  username : String
deriving DecidableEq

/-- A conversation document as the archival script sees it: object id,
owning-user reference, last-updated timestamp (integer, in days), and the
archived flag (false models both an absent and a false field, matching
the query isArchived ne true). -/
structure Convo where
  cid : Nat
  user : Nat
  updatedAt : Int
  isArchived : Bool
deriving DecidableEq

/-- The database state: the users and conversations collections. -/
structure DbState where
  users : List DbUser
  convos : List Convo
deriving DecidableEq

/-- The database and filesystem-visible operations the archival script
performs, in order. -/
inductive Event where
  | connect
  | findUser (username : String)
  | findConvos (userId : Nat)
  | updateMany (ids : List Nat)
  | disconnect
deriving DecidableEq

/-- How a run of the archival script terminates: normal completion, or one
of the process.exit(1) sites (no arguments, username failing the
alphanumeric-underscore pattern, username with no matching user). -/
inductive Outcome where
  | completed
  | exitNoArgs
  | exitInvalidUsername
  | exitUserNotFound
deriving DecidableEq

/-- The observable result of a run: the ordered operation trace, the final
database state, and how the process terminated. -/
structure ArchiveResult where
  events : List Event
  db : DbState
  outcome : Outcome
deriving DecidableEq

/-- The days threshold of the archival script. -/
def DAYS_THRESHOLD : Int := 30

/-- The username validation of the script: the regular expression
anchored-caret a-zA-Z0-9_ plus anchored-dollar, i.e. nonempty and every
character an ASCII letter, digit, or underscore. -/
def validUsername (s : String) : Bool :=
  !s.data.isEmpty && s.data.all (fun c => c.isAlphanum || c == '_')

/-- User.findOne on the username field. -/
def findUser (db : DbState) (uname : String) : Option DbUser :=
  db.users.find? (fun u => u.username == uname)

/-- The selection query of the script: conversations of the given user,
last updated strictly before the threshold, and not already archived. -/
def matchesArchiveQuery (userId : Nat) (threshold : Int) (c : Convo) : Bool :=
  c.user == userId && c.updatedAt < threshold && !c.isArchived

/-- One loop iteration after the user has been found: select the matching
conversations; when none match, or in dry-run mode, continue without
mutation; otherwise flag exactly the selected ids archived in one
updateMany. Returns the new database state and the operations performed. -/
def processUser (dry : Bool) (threshold : Int) (db : DbState) (usr : DbUser) :
    DbState × List Event :=
  let old := db.convos.filter (matchesArchiveQuery usr.uid threshold)
  if old.isEmpty then (db, [Event.findConvos usr.uid])
  else if dry then (db, [Event.findConvos usr.uid])
  else
    let ids := old.map (fun c => c.cid)
    ({ db with
        convos := db.convos.map (fun c =>
          if ids.contains c.cid then { c with isArchived := true } else c) },
      [Event.findConvos usr.uid, Event.updateMany ids])

/-- The per-username loop of the script: validate the username (exiting the
whole process on failure), look the user up (exiting on failure), process
the user, and continue with the remaining usernames. -/
def archiveLoop (dry : Bool) (threshold : Int) (db : DbState) :
    List String → ArchiveResult
  | [] => ⟨[], db, Outcome.completed⟩
  | u :: rest =>
    if validUsername u then
      match findUser db u with
      | none => ⟨[Event.findUser u], db, Outcome.exitUserNotFound⟩
      | some usr =>
        let step := processUser dry threshold db usr
        let r := archiveLoop dry threshold step.1 rest
        ⟨Event.findUser u :: step.2 ++ r.events, r.db, r.outcome⟩
    else ⟨[], db, Outcome.exitInvalidUsername⟩

/-- A full run of the archival script on a process argument vector (node
executable and script path first, then the positional arguments): connect
first, exit if no arguments remain after dropping the first two, then run
the loop with the dry-run flag detected by membership in the full argument
vector; the finally-block disconnect runs only on normal completion, since
process.exit terminates immediately. -/
def runArchive (argv : List String) (db : DbState) (now : Int) : ArchiveResult :=
  if (argv.drop 2).isEmpty then ⟨[Event.connect], db, Outcome.exitNoArgs⟩
  else if (archiveLoop (argv.contains "--dry-run") (now - DAYS_THRESHOLD) db
            (argv.drop 2)).outcome = Outcome.completed then
    ⟨Event.connect ::
        (archiveLoop (argv.contains "--dry-run") (now - DAYS_THRESHOLD) db
          (argv.drop 2)).events ++ [Event.disconnect],
      (archiveLoop (argv.contains "--dry-run") (now - DAYS_THRESHOLD) db
        (argv.drop 2)).db,
      Outcome.completed⟩
  else
    ⟨Event.connect ::
        (archiveLoop (argv.contains "--dry-run") (now - DAYS_THRESHOLD) db
          (argv.drop 2)).events,
      (archiveLoop (argv.contains "--dry-run") (now - DAYS_THRESHOLD) db
        (argv.drop 2)).db,
      (archiveLoop (argv.contains "--dry-run") (now - DAYS_THRESHOLD) db
        (argv.drop 2)).outcome⟩

/-- Recognizer for bulk-update events, to count mutations in a trace. -/
def isUpdateEvent : Event → Bool
  | Event.updateMany _ => true
  | _ => false

end Archive

namespace ExportRun

/-- A conversation document as the export script sees it: conversation id,
owning-user reference, title, and model name. -/
structure ExpConvo where
  conversationId : String
  user : Nat
  title : String
  model : String
deriving DecidableEq

/-- The database state for the export script: users, conversations, and
the messages of each conversation id (the message payload is opaque to
the script and modelled as a list of strings written verbatim; the
pretty-printed JSON serialization on disk is the external library's
rendering of exactly this payload). -/
structure ExpDb where
  users : List Archive.DbUser
  convos : List ExpConvo
  messages : String → List String

/-- The base export directory of the script. -/
def exportDir : String := "export"

/-- The filesystem-special characters the title sanitizer replaces:
slash, backslash, question mark, percent, asterisk, colon, pipe,
double quote, less-than, greater-than. -/
def specialChars : List Char :=
  ['/', Char.ofNat 92, '?', '%', '*', ':', '|', Char.ofNat 34, '<', '>']

/-- Title sanitization: the global character-class replace of each special
character by a hyphen. -/
def sanitizeTitle (s : String) : String :=
  String.mk (s.data.map (fun c => if specialChars.contains c then '-' else c))

/-- User.findById restricted to the username, with the script fallback to
the placeholder when the user cannot be resolved. -/
def usernameFor (db : ExpDb) (userId : Nat) : String :=
  match db.users.find? (fun u => u.uid == userId) with
  | some u => u.username
  | none => "unknown_user"

/-- The output path of one conversation:
export root, owner username, then sanitized title, two hyphens, model
name, one hyphen, conversation id, and the json suffix. -/
def exportPathFor (db : ExpDb) (userId : Nat) (c : ExpConvo) : String :=
  exportDir ++ "/" ++ usernameFor db userId ++ "/" ++ sanitizeTitle c.title
    ++ "--" ++ c.model ++ "-" ++ c.conversationId ++ ".json"

/-- The observable result of one user's export: the files written (path and
payload, in order) and whether an error was caught (and logged) inside
this user's export. -/
structure ExportResult where
  writes : List (String × List String)
  errored : Bool
deriving DecidableEq

/-- The per-conversation loop of one user's export: skip conversations with
no messages, otherwise write the messages to the computed path; a write
whose path is in the failing set throws, which the catch block of
exportUserConversations turns into a logged stop of that user's remaining
conversations. -/
def exportConvosLoop (db : ExpDb) (failPaths : List String) (userId : Nat) :
    List ExpConvo → ExportResult
  | [] => ⟨[], false⟩
  | c :: rest =>
    let msgs := db.messages c.conversationId
    if msgs.isEmpty then exportConvosLoop db failPaths userId rest
    else
      let p := exportPathFor db userId c
      if failPaths.contains p then ⟨[], true⟩
      else
        let r := exportConvosLoop db failPaths userId rest
        ⟨(p, msgs) :: r.writes, r.errored⟩

/-- One user's export: select the user's conversations and run the loop.
The try/catch/finally of the source confines any error to this call, so
the function is total and never propagates a failure to its caller. -/
def exportUserConversations (db : ExpDb) (failPaths : List String)
    (userId : Nat) : ExportResult :=
  exportConvosLoop db failPaths userId
    (db.convos.filter (fun c => c.user == userId))

/-- The all-users driver: every user in the collection is exported in
order; because the per-user export never throws, the loop is a map over
the users. -/
def exportAllUsers (db : ExpDb) (failPaths : List String) :
    List (Nat × ExportResult) :=
  db.users.map (fun u => (u.uid, exportUserConversations db failPaths u.uid))

end ExportRun

open Rendering Archive ExportRun

/-- Elementwise normalization of an array of plain strings succeeds and
returns exactly those strings. -/
theorem processList_map_vStr (ss : List String) :
    processList (ss.map JSValue.vStr) = some ss := by
  induction ss with
  | nil => rfl
  | cons s rest ih => simp [processList, processContent, ih]

/-- Claim C1: the content normalizer returns a single flat string: an array
yields the in-order concatenation of the normalized elements; an object
with a value field yields String of that value; an object with a raw field
yields String of that field; children nested under props.children (both
for React elements and for plain objects carrying a props object) are
normalized recursively; null and undefined normalize to the empty string,
not to the literal strings undefined or null; and for a plain string, a
one-level array of strings, or a nested node carrying a raw-text field,
the result is the exact concatenated literal text. -/
theorem claim1_processContent_flattens :
    (∀ s, processContent (.vStr s) = some s)
    ∧ (∀ xs, processContent (.vArr xs) = (processList xs).map joinStrings)
    ∧ (∀ ss : List String,
        processContent (.vArr (ss.map JSValue.vStr)) = some (joinStrings ss))
    ∧ (∀ v rest, processContent (.vObj (("value", v) :: rest))
        = some (jsString v))
    ∧ (∀ r, processContent (.vObj [("raw", r)]) = some (jsString r))
    ∧ (∀ c rest, processContent (.vElem (("children", c) :: rest))
        = processContent c)
    ∧ (∀ c, processContent (.vObj [("props", .vObj [("children", c)])])
        = processContent c)
    ∧ processContent .vUndefined = some ""
    ∧ processContent .vNull = some ""
    ∧ (∀ s₁ s₂ s₃,
        processContent (.vArr [.vStr s₁, .vObj [("raw", .vStr s₂)], .vStr s₃])
          = some (s₁ ++ s₂ ++ s₃)) := by
  refine ⟨fun s => rfl, fun xs => by simp [processContent],
    fun ss => by simp [processContent, processList_map_vStr],
    fun v rest => by simp [processContent, lookupField],
    fun r => by simp [processContent, lookupField],
    fun c rest => by simp [processContent, elemChildren],
    fun c => by simp [processContent, lookupField, objPropsChildren, propsChildren],
    rfl, rfl, fun s₁ s₂ s₃ => ?_⟩
  simp [processContent, processList, lookupField, jsString, joinStrings,
    String.append_empty, String.append_assoc]

/-- Claim C9: the empty-string normalization applies only at the final
nullish-coalescing fallback: an object whose value key holds undefined or
null yields the literal strings undefined and null (String of the field),
not the empty string; and the value key takes precedence over the raw key
in either field order. -/
theorem claim9_value_field_precedence :
    processContent (.vObj [("value", .vUndefined)]) = some "undefined"
    ∧ processContent (.vObj [("value", .vNull)]) = some "null"
    ∧ processContent (.vObj [("value", .vUndefined)]) ≠ some ""
    ∧ (∀ v r rest, processContent (.vObj (("value", v) :: ("raw", r) :: rest))
        = some (jsString v))
    ∧ (∀ v r rest, processContent (.vObj (("raw", r) :: ("value", v) :: rest))
        = some (jsString v)) := by
  refine ⟨rfl, rfl, by decide,
    fun v r rest => by simp [processContent, lookupField],
    fun v r rest => by simp [processContent, lookupField]⟩

/-- Claim C7: any sequence of language selections leaves the text content
handed to the editor unchanged (along with the read-only flag, the
filename, and the height), while a single selection sets the
current-language label and the model language mode to the chosen language
and closes the selection dropdown. -/
theorem claim7_language_change_preserves_content :
    (∀ (s : EditorState) (langs : List String),
      (langs.foldl handleLanguageChange s).content = s.content
      ∧ (langs.foldl handleLanguageChange s).readOnly = s.readOnly
      ∧ (langs.foldl handleLanguageChange s).filename = s.filename
      ∧ (langs.foldl handleLanguageChange s).height = s.height)
    ∧ (∀ (s : EditorState) (l : String),
      (handleLanguageChange s l).currentLanguage = l
      ∧ (handleLanguageChange s l).modelLanguage = l
      ∧ (handleLanguageChange s l).showLanguages = false
      ∧ (handleLanguageChange s l).content = s.content) := by
  constructor
  · intro s langs
    induction langs generalizing s with
    | nil => exact ⟨rfl, rfl, rfl, rfl⟩
    | cons l rest ih =>
      simpa [handleLanguageChange] using ih (handleLanguageChange s l)
  · exact fun s l => ⟨rfl, rfl, rfl, rfl⟩

/-- Claim C10: an explicit display-name override equal to the empty string
behaves exactly like an absent override: the tab label shown by the editor
falls back to untitled plus a dot and the language tag when a (nonempty)
language tag is present, and to exactly untitled when none is. -/
theorem claim10_empty_filename_fallback :
    (∀ lang, displayFilename (some "") lang = displayFilename none lang)
    ∧ (∀ l, l ≠ "" →
        monacoTabLabel (some (displayFilename (some "") (some l)))
          = "untitled." ++ l)
    ∧ monacoTabLabel (some (displayFilename (some "") none)) = "untitled" := by
  refine ⟨fun lang => rfl, fun l hl => ?_, rfl⟩
  simp [displayFilename, monacoTabLabel, strTruthy, hl,
    ← String.append_assoc]

/-- Witness for claim C10 at the concrete language tag ts. -/
theorem claim10_witness :
    "ts" ≠ ""
    ∧ monacoTabLabel (some (displayFilename (some "") (some "ts")))
        = "untitled.ts" :=
  ⟨by decide, claim10_empty_filename_fallback.2.1 "ts" (by decide)⟩

/-- In dry-run mode a processed user leaves the database unchanged. -/
theorem processUser_dry_db (thr : Int) (db : DbState) (usr : DbUser) :
    (processUser true thr db usr).1 = db := by
  unfold processUser
  by_cases he : (db.convos.filter (matchesArchiveQuery usr.uid thr)).isEmpty <;>
    simp [he]

/-- Processing one user never emits a user-lookup event. -/
theorem processUser_no_findUser (dry : Bool) (thr : Int) (db : DbState)
    (usr : DbUser) (u : String) :
    Event.findUser u ∉ (processUser dry thr db usr).2 := by
  unfold processUser
  by_cases he : (db.convos.filter (matchesArchiveQuery usr.uid thr)).isEmpty <;>
    by_cases hd : dry <;> simp [he, hd]

/-- In dry-run mode the whole loop leaves the database unchanged. -/
theorem archiveLoop_dry_db (thr : Int) :
    ∀ (us : List String) (db : DbState), (archiveLoop true thr db us).db = db := by
  intro us
  induction us with
  | nil => intro db; rfl
  | cons u rest ih =>
    intro db
    by_cases hv : validUsername u
    · cases hf : findUser db u with
      | none => simp [archiveLoop, hv, hf]
      | some usr =>
        simp [archiveLoop, hv, hf, processUser_dry_db, ih]
    · simp [archiveLoop, hv]

/-- When some username in the list is invalid, the loop never completes
normally. -/
theorem archiveLoop_invalid_not_completed (dry : Bool) (thr : Int) :
    ∀ (us : List String) (db : DbState),
      (∃ u ∈ us, validUsername u = false) →
      (archiveLoop dry thr db us).outcome ≠ Outcome.completed := by
  intro us
  induction us with
  | nil => rintro db ⟨u, hu, _⟩; cases hu
  | cons v rest ih =>
    rintro db ⟨u, hu, hbad⟩
    by_cases hv : validUsername v
    · cases hf : findUser db v with
      | none => simp [archiveLoop, hv, hf]
      | some usr =>
        have hmem : u ∈ rest := by
          rcases List.mem_cons.mp hu with h | h
          · subst h; rw [hv] at hbad; cases hbad
          · exact h
        simp only [archiveLoop, hv, if_true, hf]
        exact ih _ ⟨u, hmem, hbad⟩
    · simp [archiveLoop, hv]

/-- An invalid username is never looked up by the loop: the validation
guard precedes the lookup in every iteration. -/
theorem archiveLoop_no_lookup_invalid (dry : Bool) (thr : Int) (u : String)
    (hbad : validUsername u = false) :
    ∀ (us : List String) (db : DbState),
      Event.findUser u ∉ (archiveLoop dry thr db us).events := by
  intro us
  induction us with
  | nil => intro db; simp [archiveLoop]
  | cons v rest ih =>
    intro db
    by_cases hv : validUsername v
    · cases hf : findUser db v with
      | none =>
        simp [archiveLoop, hv, hf]
        intro h
        subst h; rw [hv] at hbad; cases hbad
      | some usr =>
        intro hmem
        simp [archiveLoop, hv, hf] at hmem
        rcases hmem with h | h | h
        · subst h; rw [hv] at hbad; cases hbad
        · exact processUser_no_findUser dry thr db usr u h
        · exact ih _ h
    · simp [archiveLoop, hv]

/-- The outcome of a run with at least one positional argument is the
outcome of the loop. -/
theorem runArchive_outcome_eq (argv : List String) (db : DbState) (now : Int)
    (h : (argv.drop 2).isEmpty = false) :
    (runArchive argv db now).outcome
      = (archiveLoop (argv.contains "--dry-run") (now - DAYS_THRESHOLD) db
          (argv.drop 2)).outcome := by
  simp only [runArchive, h, Bool.false_eq_true, if_false]
  split
  next hc => exact hc.symm
  next => rfl

/-- The final database of a run is the database of the loop (or the
untouched input when there are no arguments). -/
theorem runArchive_db_eq (argv : List String) (db : DbState) (now : Int)
    (h : (argv.drop 2).isEmpty = false) :
    (runArchive argv db now).db
      = (archiveLoop (argv.contains "--dry-run") (now - DAYS_THRESHOLD) db
          (argv.drop 2)).db := by
  simp only [runArchive, h, Bool.false_eq_true, if_false]
  split <;> rfl


/-- Claim C2 counterexample: on the argument list with valid username alice
followed by invalid username bad!, the run does connect to the database,
does look alice up, and does archive one of alice's conversations before
terminating on the invalid username: the database is touched although an
invalid username is present in the argument list. -/
theorem claim2_counterexample_db_touched :
    validUsername "bad!" = false
    ∧ Event.connect ∈ (runArchive ["node", "archiveAllUserChats-30days.js",
        "alice", "bad!"] ⟨[⟨1, "alice"⟩], [⟨10, 1, -100, false⟩]⟩ 0).events
    ∧ Event.updateMany [10] ∈ (runArchive ["node",
        "archiveAllUserChats-30days.js", "alice", "bad!"]
        ⟨[⟨1, "alice"⟩], [⟨10, 1, -100, false⟩]⟩ 0).events
    ∧ (runArchive ["node", "archiveAllUserChats-30days.js", "alice", "bad!"]
        ⟨[⟨1, "alice"⟩], [⟨10, 1, -100, false⟩]⟩ 0).db
        ≠ ⟨[⟨1, "alice"⟩], [⟨10, 1, -100, false⟩]⟩
    ∧ (runArchive ["node", "archiveAllUserChats-30days.js", "alice", "bad!"]
        ⟨[⟨1, "alice"⟩], [⟨10, 1, -100, false⟩]⟩ 0).outcome
        = Outcome.exitInvalidUsername := by
  decide

/-- Claim C2 as amended: when some positional argument fails the username
validation, the run never completes normally, and the invalid username
itself is never looked up in the database (validation precedes the lookup
in each iteration); the database connection and the processing of earlier
valid usernames do occur. -/
theorem claim2_amended_invalid_rejected (argv : List String) (db : DbState)
    (now : Int) (u : String) (hmem : u ∈ argv.drop 2)
    (hbad : validUsername u = false) :
    (runArchive argv db now).outcome ≠ Outcome.completed
    ∧ Event.findUser u ∉ (runArchive argv db now).events := by
  have hne : (argv.drop 2).isEmpty = false := by
    cases h : argv.drop 2 with
    | nil => rw [h] at hmem; cases hmem
    | cons a l => rfl
  constructor
  · rw [runArchive_outcome_eq argv db now hne]
    exact archiveLoop_invalid_not_completed _ _ _ _ ⟨u, hmem, hbad⟩
  · intro hev
    by_cases h : (argv.drop 2).isEmpty
    · simp [runArchive, h] at hev
    · simp only [runArchive, h, Bool.false_eq_true, if_false] at hev
      split at hev <;> simp at hev <;>
        exact archiveLoop_no_lookup_invalid _ _ u hbad _ _ hev

/-- Witness for the amended claim C2 at a concrete invocation. -/
theorem claim2_amended_witness :
    "bad!" ∈ (["node", "archiveAllUserChats-30days.js", "ok_user",
        "bad!"].drop 2)
    ∧ validUsername "bad!" = false
    ∧ (runArchive ["node", "archiveAllUserChats-30days.js", "ok_user", "bad!"]
        ⟨[], []⟩ 5).outcome ≠ Outcome.completed
    ∧ Event.findUser "bad!" ∉ (runArchive ["node",
        "archiveAllUserChats-30days.js", "ok_user", "bad!"]
        ⟨[], []⟩ 5).events :=
  ⟨by decide, by decide,
    (claim2_amended_invalid_rejected _ _ 5 "bad!" (by decide) (by decide)).1,
    (claim2_amended_invalid_rejected _ _ 5 "bad!" (by decide) (by decide)).2⟩

/-- Claim C4: a run whose argument vector carries the dry-run flag never
changes any record: the final database state equals the initial one, for
every argument list and every database state. -/
theorem claim4_dry_run_no_mutation (argv : List String) (db : DbState)
    (now : Int) (h : argv.contains "--dry-run" = true) :
    (runArchive argv db now).db = db := by
  by_cases hne : (argv.drop 2).isEmpty
  · simp [runArchive, hne]
  · rw [runArchive_db_eq argv db now (by simpa using hne), h]
    exact archiveLoop_dry_db _ _ _

/-- Witness for claim C4 at a concrete dry-run invocation over a database
holding an old unarchived conversation. -/
theorem claim4_witness :
    (["node", "archiveAllUserChats-30days.js", "alice",
        "--dry-run"].contains "--dry-run" = true)
    ∧ (runArchive ["node", "archiveAllUserChats-30days.js", "alice",
        "--dry-run"] ⟨[⟨1, "alice"⟩], [⟨10, 1, -100, false⟩]⟩ 0).db
        = ⟨[⟨1, "alice"⟩], [⟨10, 1, -100, false⟩]⟩ :=
  ⟨by decide, claim4_dry_run_no_mutation _ _ 0 (by decide)⟩

/-- With pairwise-distinct conversation ids, membership of an id in the ids
of the filtered selection is exactly the selection predicate. -/
theorem filter_cid_mem (convos : List Convo) (q : Convo → Bool)
    (hn : (convos.map (fun c => c.cid)).Nodup) (c : Convo) (hc : c ∈ convos) :
    (((convos.filter q).map (fun c => c.cid)).contains c.cid) = q c := by
  cases hq : q c with
  | false =>
    apply Bool.eq_false_iff.mpr
    intro hcon
    have hm : c.cid ∈ (convos.filter q).map (fun c => c.cid) := by
      simpa using hcon
    rcases List.mem_map.mp hm with ⟨c', hc', hcid⟩
    have hc'mem : c' ∈ convos := List.mem_of_mem_filter hc'
    have heq : c' = c := List.inj_on_of_nodup_map hn hc'mem hc hcid
    subst heq
    have := List.of_mem_filter hc'
    rw [hq] at this; cases this
  | true =>
    have hm : c.cid ∈ (convos.filter q).map (fun c => c.cid) :=
      List.mem_map.mpr ⟨c, List.mem_filter.mpr ⟨hc, hq⟩, rfl⟩
    simpa using hm

/-- In a real (non-dry) run, one processed user's step rewrites the
conversations collection pointwise: exactly the selected conversations
get the archived flag, every other conversation is unchanged in full. -/
theorem processUser_real_convos (db : DbState) (usr : DbUser) (thr : Int)
    (hn : (db.convos.map (fun c => c.cid)).Nodup) :
    (processUser false thr db usr).1.convos
      = db.convos.map (fun c =>
          if matchesArchiveQuery usr.uid thr c then { c with isArchived := true }
          else c) := by
  unfold processUser
  by_cases he : (db.convos.filter (matchesArchiveQuery usr.uid thr)).isEmpty
  · simp only [he, if_true]
    have hnil : db.convos.filter (matchesArchiveQuery usr.uid thr) = [] :=
      List.isEmpty_iff.mp he
    rw [List.filter_eq_nil_iff] at hnil
    have hmap : db.convos.map (fun c =>
        if matchesArchiveQuery usr.uid thr c then { c with isArchived := true }
        else c) = db.convos.map (fun c => c) :=
      List.map_congr_left (fun c hc => by
        simp [Bool.eq_false_iff.mpr (hnil c hc)])
    rw [hmap, List.map_id']
  · simp only [he, Bool.false_eq_true, if_false]
    apply List.map_congr_left
    intro c hc
    rw [filter_cid_mem db.convos _ hn c hc]

/-- Processing one user performs at most one bulk update. -/
theorem processUser_countP_update (dry : Bool) (thr : Int) (db : DbState)
    (usr : DbUser) :
    ((processUser dry thr db usr).2.countP isUpdateEvent) ≤ 1 := by
  unfold processUser
  by_cases he : (db.convos.filter (matchesArchiveQuery usr.uid thr)).isEmpty <;>
    by_cases hd : dry <;>
      simp [he, hd, isUpdateEvent, List.countP_cons, List.countP_nil]

/-- The update events of a run are the update events of its loop. -/
theorem runArchive_countP_update (argv : List String) (db : DbState)
    (now : Int) (hne : (argv.drop 2).isEmpty = false) :
    (runArchive argv db now).events.countP isUpdateEvent
      = (archiveLoop (argv.contains "--dry-run") (now - DAYS_THRESHOLD) db
          (argv.drop 2)).events.countP isUpdateEvent := by
  simp only [runArchive, hne, Bool.false_eq_true, if_false]
  split <;> simp [List.countP_cons, List.countP_append, isUpdateEvent]

/-- Claim C3: in a real (non-dry-run) run on one username, exactly the
conversations that belong to that user, were last updated strictly before
now minus the 30-day threshold, and are not already archived end the run
with the archived flag set, in at most one bulk update; conversations
inside the window or already archived are returned unchanged in full. -/
theorem claim3_exact_archival (argv : List String) (u : String) (db : DbState)
    (now : Int) (usr : DbUser)
    (hargs : argv.drop 2 = [u])
    (hdry : argv.contains "--dry-run" = false)
    (hv : validUsername u = true)
    (hf : findUser db u = some usr)
    (hn : (db.convos.map (fun c => c.cid)).Nodup) :
    (runArchive argv db now).db.convos
      = db.convos.map (fun c =>
          if matchesArchiveQuery usr.uid (now - DAYS_THRESHOLD) c
          then { c with isArchived := true } else c)
    ∧ ((runArchive argv db now).events.countP isUpdateEvent) ≤ 1 := by
  have hne : (argv.drop 2).isEmpty = false := by rw [hargs]; rfl
  constructor
  · rw [runArchive_db_eq _ _ _ hne, hdry, hargs]
    have : (archiveLoop false (now - DAYS_THRESHOLD) db [u]).db
        = (processUser false (now - DAYS_THRESHOLD) db usr).1 := by
      simp [archiveLoop, hv, hf]
    rw [this]
    exact processUser_real_convos db usr _ hn
  · rw [runArchive_countP_update _ _ _ hne, hdry, hargs]
    have : (archiveLoop false (now - DAYS_THRESHOLD) db [u]).events
        = Event.findUser u :: (processUser false (now - DAYS_THRESHOLD) db usr).2 := by
      simp [archiveLoop, hv, hf]
    rw [this]
    simpa [List.countP_cons, isUpdateEvent] using
      processUser_countP_update false (now - DAYS_THRESHOLD) db usr

/-- Witness for claim C3: a user with one stale unarchived conversation,
one recent conversation, and one stale already-archived conversation; only
the first is newly flagged. -/
theorem claim3_witness :
    (["node", "archiveAllUserChats-30days.js", "alice"].drop 2 = ["alice"])
    ∧ (["node", "archiveAllUserChats-30days.js",
        "alice"].contains "--dry-run" = false)
    ∧ validUsername "alice" = true
    ∧ findUser ⟨[⟨1, "alice"⟩], [⟨10, 1, -100, false⟩, ⟨11, 1, 5, false⟩,
        ⟨12, 1, -200, true⟩]⟩ "alice" = some ⟨1, "alice"⟩
    ∧ (([⟨10, 1, -100, false⟩, ⟨11, 1, 5, false⟩,
        ⟨12, 1, -200, true⟩] : List Convo).map (fun c => c.cid)).Nodup
    ∧ (runArchive ["node", "archiveAllUserChats-30days.js", "alice"]
        ⟨[⟨1, "alice"⟩], [⟨10, 1, -100, false⟩, ⟨11, 1, 5, false⟩,
          ⟨12, 1, -200, true⟩]⟩ 0).db.convos
        = ([⟨10, 1, -100, false⟩, ⟨11, 1, 5, false⟩,
            ⟨12, 1, -200, true⟩] : List Convo).map (fun c =>
            if matchesArchiveQuery 1 (0 - DAYS_THRESHOLD) c
            then { c with isArchived := true } else c)
    ∧ ((runArchive ["node", "archiveAllUserChats-30days.js", "alice"]
        ⟨[⟨1, "alice"⟩], [⟨10, 1, -100, false⟩, ⟨11, 1, 5, false⟩,
          ⟨12, 1, -200, true⟩]⟩ 0).events.countP isUpdateEvent) ≤ 1 :=
  ⟨by decide, by decide, by decide, by decide, by decide,
    (claim3_exact_archival _ "alice" _ 0 ⟨1, "alice"⟩ (by decide) (by decide)
      (by decide) (by decide) (by decide)).1,
    (claim3_exact_archival _ "alice" _ 0 ⟨1, "alice"⟩ (by decide) (by decide)
      (by decide) (by decide) (by decide)).2⟩

/-- In dry-run mode, after any prefix of valid and present usernames, an
invalid argument terminates the loop with the validation failure. -/
theorem archiveLoop_dry_invalid_head (thr : Int) (w : String)
    (hbad : validUsername w = false) (rest : List String) :
    ∀ (pre : List String) (db : DbState),
      (∀ u ∈ pre, validUsername u = true ∧ (findUser db u).isSome = true) →
      (archiveLoop true thr db (pre ++ w :: rest)).outcome
        = Outcome.exitInvalidUsername := by
  intro pre
  induction pre with
  | nil => intro db _; simp [archiveLoop, hbad]
  | cons v pre' ih =>
    intro db hall
    obtain ⟨hv, hfs⟩ := hall v (List.mem_cons_self v pre')
    rcases Option.isSome_iff_exists.mp hfs with ⟨usr, hf⟩
    simp [archiveLoop, hv, hf, processUser_dry_db]
    exact ih db (fun u hu => hall u (List.mem_cons_of_mem _ hu))

/-- Claim C8: the dry-run flag is detected by membership in the full
argument vector but stays in the positional username list, and it fails
the username pattern; hence a run whose positional arguments include the
flag never completes normally, and when every username before the flag is
valid and present, the run terminates exactly with the username-validation
failure upon reaching the flag. -/
theorem claim8_dry_run_flag_fails_validation :
    validUsername "--dry-run" = false
    ∧ (∀ (argv : List String) (db : DbState) (now : Int),
        "--dry-run" ∈ argv.drop 2 →
        (runArchive argv db now).outcome ≠ Outcome.completed)
    ∧ (∀ (argv pre rest : List String) (db : DbState) (now : Int),
        argv.drop 2 = pre ++ "--dry-run" :: rest →
        (∀ u ∈ pre, validUsername u = true ∧ (findUser db u).isSome = true) →
        (runArchive argv db now).outcome = Outcome.exitInvalidUsername) := by
  refine ⟨by decide, ?_, ?_⟩
  · intro argv db now hmem
    have hne : (argv.drop 2).isEmpty = false := by
      cases h : argv.drop 2 with
      | nil => rw [h] at hmem; cases hmem
      | cons a l => rfl
    rw [runArchive_outcome_eq _ _ _ hne]
    exact archiveLoop_invalid_not_completed _ _ _ _ ⟨"--dry-run", hmem, by decide⟩
  · intro argv pre rest db now h hall
    have hmemdrop : "--dry-run" ∈ argv.drop 2 := by
      rw [h]; exact List.mem_append_right _ (List.mem_cons_self _ _)
    have hmem : "--dry-run" ∈ argv := List.mem_of_mem_drop hmemdrop
    have hdry : argv.contains "--dry-run" = true := by simpa using hmem
    have hne : (argv.drop 2).isEmpty = false := by
      rw [h]; cases pre <;> rfl
    rw [runArchive_outcome_eq _ _ _ hne, hdry, h]
    exact archiveLoop_dry_invalid_head _ _ (by decide) rest pre db hall

/-- Witness for claim C8: one valid, present username followed by the
dry-run flag terminates with the validation failure. -/
theorem claim8_witness :
    "--dry-run" ∈ (["node", "archiveAllUserChats-30days.js", "alice",
        "--dry-run"].drop 2)
    ∧ (runArchive ["node", "archiveAllUserChats-30days.js", "alice",
        "--dry-run"] ⟨[⟨1, "alice"⟩], []⟩ 0).outcome ≠ Outcome.completed
    ∧ (["node", "archiveAllUserChats-30days.js", "alice", "--dry-run"].drop 2
        = ["alice"] ++ "--dry-run" :: [])
    ∧ (runArchive ["node", "archiveAllUserChats-30days.js", "alice",
        "--dry-run"] ⟨[⟨1, "alice"⟩], []⟩ 0).outcome
        = Outcome.exitInvalidUsername :=
  ⟨by decide,
    claim8_dry_run_flag_fails_validation.2.1 _ _ 0 (by decide),
    by decide,
    claim8_dry_run_flag_fails_validation.2.2 _ ["alice"] [] _ 0 (by decide)
      (by decide)⟩

/-- With no failing writes, one user's export writes exactly one file per
conversation that has messages, in order. -/
theorem exportConvosLoop_no_fail (db : ExpDb) (userId : Nat) :
    ∀ l : List ExpConvo, exportConvosLoop db [] userId l
      = ⟨l.filterMap (fun c =>
          if (db.messages c.conversationId).isEmpty then none
          else some (exportPathFor db userId c, db.messages c.conversationId)),
        false⟩ := by
  intro l
  induction l with
  | nil => rfl
  | cons c rest ih =>
    by_cases hm : db.messages c.conversationId = []
    · simp [exportConvosLoop, hm, List.filterMap_cons, ih]
    · simp [exportConvosLoop, hm, List.filterMap_cons, ih]

/-- Claim C6: every exported conversation is written at the path composed
of the export root, the owner username (with the unknown_user placeholder
when the user cannot be resolved), the sanitized title, two hyphens, the
model name, one hyphen, the conversation id, and the json suffix; the
payload written is exactly the conversation messages; and sanitization
replaces each filesystem-special character of the title by a hyphen. -/
theorem claim6_export_paths :
    (∀ (db : ExpDb) (uid : Nat),
      (exportUserConversations db [] uid).writes
        = (db.convos.filter (fun c => c.user == uid)).filterMap (fun c =>
            if (db.messages c.conversationId).isEmpty then none
            else some (exportPathFor db uid c, db.messages c.conversationId)))
    ∧ sanitizeTitle "Q&A: 50%/100%?" = "Q&A- 50--100--"
    ∧ (∀ (cs : List ExpConvo) (m : String → List String) (uid : Nat)
        (c : ExpConvo),
        exportPathFor ⟨[], cs, m⟩ uid c
          = "export" ++ "/" ++ "unknown_user" ++ "/" ++ sanitizeTitle c.title
            ++ "--" ++ c.model ++ "-" ++ c.conversationId ++ ".json") := by
  refine ⟨fun db uid => ?_, by decide, fun cs m uid c => rfl⟩
  unfold exportUserConversations
  rw [exportConvosLoop_no_fail]

/-- Claim C5 counterexample: with two users and a write failure injected
into the first user's only conversation, the first user's export errors
(no file, errored flag set) and the second user is still processed and
gets its file written: an error for one user does not stop the run. -/
theorem claim5_counterexample_second_user_processed :
    (exportAllUsers
      ⟨[⟨1, "alice"⟩, ⟨2, "bob"⟩],
       [⟨"c1", 1, "t1", "m1"⟩, ⟨"c2", 2, "t2", "m2"⟩],
       fun _ => ["msg"]⟩
      ["export/alice/t1--m1-c1.json"])
    = [(1, ⟨[], true⟩),
       (2, ⟨[("export/bob/t2--m2-c2.json", ["msg"])], false⟩)] := by
  decide

/-- Claim C5 as amended: an error while exporting one user's conversations
is caught inside that user's export: it aborts only the remaining
conversations of that user (the files written are a prefix of the
no-failure output), while every user of the run, including every
subsequent one, is still visited in order. -/
theorem claim5_amended_error_confined :
    (∀ (db : ExpDb) (failPaths : List String),
      (exportAllUsers db failPaths).map Prod.fst
        = db.users.map (fun u => u.uid))
    ∧ (∀ (db : ExpDb) (failPaths : List String) (uid : Nat),
      ∃ t, (exportUserConversations db [] uid).writes
        = (exportUserConversations db failPaths uid).writes ++ t) := by
  constructor
  · intro db failPaths
    simp [exportAllUsers]
  · intro db failPaths uid
    unfold exportUserConversations
    generalize db.convos.filter (fun c => c.user == uid) = l
    induction l with
    | nil => exact ⟨[], rfl⟩
    | cons c rest ih =>
      by_cases hm : db.messages c.conversationId = []
      · simpa [exportConvosLoop, hm] using ih
      · by_cases hf : exportPathFor db uid c ∈ failPaths
        · refine ⟨(exportPathFor db uid c, db.messages c.conversationId) ::
            (exportConvosLoop db [] uid rest).writes, ?_⟩
          simp [exportConvosLoop, hm, hf]
        · rcases ih with ⟨t, ht⟩
          refine ⟨t, ?_⟩
          simp [exportConvosLoop, hm, hf, ht]
